import Mathlib

/-!
# Verification of the SIPO shift-register driver (`src/sipo.rs`)

A shallow embedding of the driver's core logic. The Rust code drives three
GPIO output lines (clock, latch, data). We model each physical line-drive
call (`set_high` / `set_low` on one of the three lines) as a `Drive` value,
and the observable behaviour of an `update` call as the list of drives it
attempts, in call order, together with the updated cached bit pattern and
the returned `Result`.

Fallibility of the underlying `OutputPin` calls is modelled by a failure
oracle `fail : Nat → Bool`: the `k`-th line-drive call of an invocation
(counting from 0) fails exactly when `fail k = true`, matching the generic
`Result<(), ()>` signature of the Rust trait where any call may fail.

The out-of-bounds panic of `self.output_state.borrow_mut()[index] = command`
(Rust slice indexing panics when `index >= width`) is modelled by `update`
returning `none`; a returned `Result` (`Except` here) is `some`.
-/

/-- The three physical output lines owned by the shift register core. -/
inductive Line where
  | clock
  | latch
  | data
deriving DecidableEq, BEq, Repr

/-- The two drive levels of a digital output line (`set_high` / `set_low`). -/
inductive Level where
  | high
  | low
deriving DecidableEq, BEq, Repr

/-- One physical line-drive call: which line, and to which level. -/
structure Drive where
  line : Line
  level : Level
deriving DecidableEq, BEq, Repr

/-- The opposite drive level. -/
def levelComplement : Level → Level
  | Level.high => Level.low
  | Level.low => Level.high

/-- The same line driven to the opposite level. -/
def driveComplement (d : Drive) : Drive :=
  ⟨d.line, levelComplement d.level⟩

/-- The data-line level encoding one cached bit, from the body of the `for`
loop of `update`: a `true` bit drives data high unless `inverted`, a `false`
bit drives data low unless `inverted`. -/
def dataLevel (inverted : Bool) (bit : Bool) : Level :=
  if bit then
    (if inverted then Level.low else Level.high)
  else
    (if inverted then Level.high else Level.low)

/-- The latch drive issued before the shifting loop of `update`:
`set_high` when `inverted`, `set_low` otherwise. -/
def latchOpen (inverted : Bool) : Drive :=
  ⟨Line.latch, if inverted then Level.high else Level.low⟩

/-- The latch drive issued after the shifting loop of `update`:
`set_low` when `inverted`, `set_high` otherwise. -/
def latchClose (inverted : Bool) : Drive :=
  ⟨Line.latch, if inverted then Level.low else Level.high⟩

/-- One iteration of the shifting loop of `update`: drive the data line to
the level encoding `bit`, then drive the clock line high, then low. -/
def shiftRound (inverted : Bool) (bit : Bool) : List Drive :=
  [⟨Line.data, dataLevel inverted bit⟩,
   ⟨Line.clock, Level.high⟩,
   ⟨Line.clock, Level.low⟩]

/-- The drives issued by the loop `for i in 1..=output_state.len()` of
`update`, which reads `output_state[output_state.len() - i]`: with the loop
counter re-expressed as the number `n` of iterations still to run,
iteration `len - n + 1` (reading position `n - 1`) comes first, so
`shiftFrom inverted pattern n` visits positions `n-1, n-2, …, 0`.
`shiftFrom inverted pattern pattern.length` is the whole loop. -/
def shiftFrom (inverted : Bool) (pattern : List Bool) : Nat → List Drive
  | 0 => []
  | n + 1 => shiftRound inverted (pattern.getD n false) ++ shiftFrom inverted pattern n

/-- The full sequence of line-drive calls of one `update` invocation when no
call fails: open the latch, shift all `pattern.length` bits starting from the
last position, close the latch. -/
def commitSequence (inverted : Bool) (pattern : List Bool) : List Drive :=
  latchOpen inverted :: (shiftFrom inverted pattern pattern.length ++ [latchClose inverted])

/-- Attempt a list of drives in order under a failure oracle: the `k`-th call
(counting from 0) fails when `fail k = true`. Returns the drives actually
attempted — a fallible call is attempted, and aborts the rest when it fails,
mirroring the `?` operator after every `set_high`/`set_low` — and whether all
succeeded. -/
def runDrives (fail : Nat → Bool) : List Drive → List Drive × Bool
  | [] => ([], true)
  | d :: ds =>
      if fail 0 then
        ([d], false)
      else
        let r := runDrives (fun n => fail (n + 1)) ds
        (d :: r.1, r.2)

/-- `ShiftRegisterInternal::update(index, command)`: writes `command` into
the cached pattern at `index` (a Rust slice write that panics — here `none` —
when `index` is out of bounds), then attempts the commit sequence for the
updated pattern. Returns the `Result` (`Except.ok ()` when every drive
succeeded, `Except.error ()` at the first failing drive), the updated cached
pattern, and the drives attempted in call order. -/
def update (fail : Nat → Bool) (inverted : Bool) (pattern : List Bool)
    (index : Nat) (command : Bool) :
    Option (Except Unit Unit × List Bool × List Drive) :=
  if index < pattern.length then
    let pattern' := pattern.set index command
    let r := runDrives fail (commitSequence inverted pattern')
    some ((if r.2 then Except.ok () else Except.error ()), pattern', r.1)
  else
    none

/-- The shift register core: the three owned output lines (opaque values of
caller-chosen types, matching the `Pin1, Pin2, Pin3` type parameters), the
cached `output_state`, and the `inverted` flag. -/
structure ShiftRegister (P1 P2 P3 : Type) where
  clock : P1
  latch : P2
  data : P3
  output_state : List Bool
  inverted : Bool

/-- `new(clock, latch, data)` for the width-`w` register type: the cached
pattern starts as `[false; w]` and `inverted` as `false`. The constructor
body is a plain struct literal, so its drive trace is empty. -/
def ShiftRegister.new {P1 P2 P3 : Type} (w : Nat) (clock : P1) (latch : P2) (data : P3) :
    ShiftRegister P1 P2 P3 × List Drive :=
  (⟨clock, latch, data, List.replicate w false, false⟩, [])

/-- A `ShiftRegisterPin`: a handle holding only its bit index (plus, in Rust,
a borrow of the core, which here is passed explicitly to its methods). -/
structure ShiftRegisterPin where
  index : Nat

/-- `OutputPin::set_low` for `ShiftRegisterPin`:
`self.shift_register.update(self.index, false)?; Ok(())`. -/
def ShiftRegisterPin.set_low (pin : ShiftRegisterPin) (fail : Nat → Bool)
    (inverted : Bool) (pattern : List Bool) :
    Option (Except Unit Unit × List Bool × List Drive) :=
  match update fail inverted pattern pin.index false with
  | none => none
  | some (Except.error e, p, t) => some (Except.error e, p, t)
  | some (Except.ok _, p, t) => some (Except.ok (), p, t)

/-- `OutputPin::set_high` for `ShiftRegisterPin`:
`self.shift_register.update(self.index, true)?; Ok(())`. -/
def ShiftRegisterPin.set_high (pin : ShiftRegisterPin) (fail : Nat → Bool)
    (inverted : Bool) (pattern : List Bool) :
    Option (Except Unit Unit × List Bool × List Drive) :=
  match update fail inverted pattern pin.index true with
  | none => none
  | some (Except.error e, p, t) => some (Except.error e, p, t)
  | some (Except.ok _, p, t) => some (Except.ok (), p, t)

/-- `decompose()`: one `ShiftRegisterPin` per index `0, …, width-1`, built by
`enumerate` over the array slots. It borrows the core immutably and issues no
drives, so its trace is empty. -/
def ShiftRegister.decompose {P1 P2 P3 : Type} (sr : ShiftRegister P1 P2 P3) :
    List ShiftRegisterPin × List Drive :=
  ((List.range sr.output_state.length).map (fun i => ⟨i⟩), [])

/-- `release()`: destructures the core and returns the three lines
`(clock, latch, data)` by `into_inner`, issuing no drives. -/
def ShiftRegister.release {P1 P2 P3 : Type} (sr : ShiftRegister P1 P2 P3) :
    (P1 × P2 × P3) × List Drive :=
  ((sr.clock, sr.latch, sr.data), [])

/-- The data-line drives of a trace, in order. -/
def dataDrives (l : List Drive) : List Drive :=
  l.filter (fun d => d.line == Line.data)

/-- The clock-line drives of a trace, in order. -/
def clockDrives (l : List Drive) : List Drive :=
  l.filter (fun d => d.line == Line.clock)

/-- The latch-line drives of a trace, in order. -/
def latchDrives (l : List Drive) : List Drive :=
  l.filter (fun d => d.line == Line.latch)

/-- `n` clock pulses: high then low, `n` times. -/
def clockPulses : Nat → List Drive
  | 0 => []
  | n + 1 => ⟨Line.clock, Level.high⟩ :: ⟨Line.clock, Level.low⟩ :: clockPulses n

/-! ## Helper lemmas -/

/-- The shifting loop, re-expressed pulse by pulse from its start: pulse `k`
(counting from 0) serialises the bit at position `n - 1 - k`. -/
theorem shiftFrom_eq_join (inverted : Bool) (pattern : List Bool) (n : Nat) :
    shiftFrom inverted pattern n =
      ((List.range n).map
        (fun k => shiftRound inverted (pattern.getD (n - 1 - k) false))).flatten := by
  induction n with
  | zero => rfl
  | succ m ih =>
      rw [shiftFrom, List.range_succ_eq_map]
      simp only [List.map_cons, List.map_map, List.flatten_cons]
      have h0 : m + 1 - 1 - 0 = m := by omega
      have hf : ((fun k => shiftRound inverted (pattern.getD (m + 1 - 1 - k) false)) ∘ Nat.succ)
          = (fun k => shiftRound inverted (pattern.getD (m - 1 - k) false)) := by
        funext k
        rw [Function.comp_apply]
        have h2 : m + 1 - 1 - Nat.succ k = m - 1 - k := by omega
        rw [h2]
      rw [h0, hf, ih]

/-- The data-line drives of the shifting loop: pulse `k` drives the data line
to the level encoding the cached bit at position `n - 1 - k`. -/
theorem dataDrives_shiftFrom (inverted : Bool) (pattern : List Bool) (n : Nat) :
    dataDrives (shiftFrom inverted pattern n) =
      (List.range n).map
        (fun k => ⟨Line.data, dataLevel inverted (pattern.getD (n - 1 - k) false)⟩) := by
  induction n with
  | zero => rfl
  | succ m ih =>
      rw [shiftFrom, List.range_succ_eq_map, dataDrives, List.filter_append]
      have hround : (shiftRound inverted (pattern.getD m false)).filter
          (fun d => d.line == Line.data)
          = [⟨Line.data, dataLevel inverted (pattern.getD m false)⟩] := rfl
      rw [hround]
      simp only [List.map_cons, List.map_map]
      have h0 : m + 1 - 1 - 0 = m := by omega
      have hf : ((fun k => (⟨Line.data, dataLevel inverted (pattern.getD (m + 1 - 1 - k) false)⟩ : Drive)) ∘ Nat.succ)
          = (fun k => (⟨Line.data, dataLevel inverted (pattern.getD (m - 1 - k) false)⟩ : Drive)) := by
        funext k
        rw [Function.comp_apply]
        have h2 : m + 1 - 1 - Nat.succ k = m - 1 - k := by omega
        rw [h2]
      rw [h0, hf, ← ih]
      rfl

/-- The clock-line drives of the shifting loop are `n` high/low pulses,
whatever the polarity flag and the pattern. -/
theorem clockDrives_shiftFrom (inverted : Bool) (pattern : List Bool) (n : Nat) :
    clockDrives (shiftFrom inverted pattern n) = clockPulses n := by
  induction n with
  | zero => rfl
  | succ m ih =>
      rw [shiftFrom, clockDrives, List.filter_append]
      have hround : (shiftRound inverted (pattern.getD m false)).filter
          (fun d => d.line == Line.clock)
          = [⟨Line.clock, Level.high⟩, ⟨Line.clock, Level.low⟩] := rfl
      rw [hround, ← clockDrives, ih]
      rfl

/-- The data-line drives of a full commit sequence (the latch drives being on
the latch line, they are filtered out). -/
theorem dataDrives_commitSequence (inverted : Bool) (pattern : List Bool) :
    dataDrives (commitSequence inverted pattern) =
      (List.range pattern.length).map
        (fun k =>
          ⟨Line.data, dataLevel inverted (pattern.getD (pattern.length - 1 - k) false)⟩) := by
  have hopen : ((latchOpen inverted).line == Line.data) = false := by
    cases inverted <;> rfl
  have hclose : ((latchClose inverted).line == Line.data) = false := by
    cases inverted <;> rfl
  rw [commitSequence, dataDrives]
  simp only [List.filter_cons, List.filter_append, List.filter_nil, hopen, hclose,
    Bool.false_eq_true, if_false, List.append_nil]
  exact dataDrives_shiftFrom inverted pattern pattern.length

/-- The clock-line drives of a full commit sequence are exactly
`pattern.length` high/low pulses, independent of the polarity flag. -/
theorem clockDrives_commitSequence (inverted : Bool) (pattern : List Bool) :
    clockDrives (commitSequence inverted pattern) = clockPulses pattern.length := by
  have hopen : ((latchOpen inverted).line == Line.clock) = false := by
    cases inverted <;> rfl
  have hclose : ((latchClose inverted).line == Line.clock) = false := by
    cases inverted <;> rfl
  rw [commitSequence, clockDrives]
  simp only [List.filter_cons, List.filter_append, List.filter_nil, hopen, hclose,
    Bool.false_eq_true, if_false, List.append_nil]
  exact clockDrives_shiftFrom inverted pattern pattern.length

/-- Running drives succeeds exactly when no call within range fails. -/
theorem runDrives_snd_true_iff (ds : List Drive) : ∀ (fail : Nat → Bool),
    ((runDrives fail ds).2 = true ↔ ∀ k, k < ds.length → fail k = false) := by
  induction ds with
  | nil =>
      intro fail
      simp [runDrives]
  | cons d ds ih =>
      intro fail
      by_cases h : fail 0 = true
      · simp only [runDrives, h, if_true, List.length_cons]
        constructor
        · intro hc
          exact absurd hc (by simp)
        · intro hall
          exact absurd h (by rw [hall 0 (Nat.succ_pos ds.length)]; simp)
      · have h0 : fail 0 = false := by
          cases hf : fail 0
          · rfl
          · exact absurd hf h
        simp only [runDrives, h0, Bool.false_eq_true, if_false, List.length_cons]
        rw [ih (fun n => fail (n + 1))]
        constructor
        · intro hall k hk
          cases k with
          | zero => exact h0
          | succ j => exact hall j (by omega)
        · intro hall k hk
          exact hall (k + 1) (by omega)

/-- When every call succeeds, the drives attempted are the whole list. -/
theorem runDrives_fst_of_snd (ds : List Drive) : ∀ (fail : Nat → Bool),
    (runDrives fail ds).2 = true → (runDrives fail ds).1 = ds := by
  induction ds with
  | nil =>
      intro fail _
      rfl
  | cons d ds ih =>
      intro fail hok
      by_cases h : fail 0 = true
      · simp only [runDrives, h, if_true] at hok
        exact absurd hok (by simp)
      · have h0 : fail 0 = false := by
          cases hf : fail 0
          · rfl
          · exact absurd hf h
        simp only [runDrives, h0, Bool.false_eq_true, if_false] at hok ⊢
        rw [ih (fun n => fail (n + 1)) hok]

/-- If the first failing call is the `k`-th (0-based), the attempted drives
are exactly the first `k + 1` and the run reports failure. -/
theorem runDrives_first_fail (ds : List Drive) : ∀ (fail : Nat → Bool) (k : Nat),
    k < ds.length → fail k = true → (∀ j, j < k → fail j = false) →
    runDrives fail ds = (ds.take (k + 1), false) := by
  induction ds with
  | nil =>
      intro fail k hk
      exact absurd hk (by simp)
  | cons d ds ih =>
      intro fail k hk hfk hprev
      cases k with
      | zero =>
          simp only [runDrives, hfk, if_true, List.take]
      | succ j =>
          have h0 : fail 0 = false := hprev 0 (Nat.succ_pos j)
          simp only [runDrives, h0, Bool.false_eq_true, if_false]
          rw [ih (fun n => fail (n + 1)) j (by simpa using hk) hfk
            (fun m hm => hprev (m + 1) (by omega))]
          rfl

/-- Setting an in-bounds position back to the value it already holds leaves
the list unchanged. -/
theorem set_getD_eq (p : List Bool) (b : Bool) : ∀ i, i < p.length →
    p.getD i false = b → p.set i b = p := by
  induction p with
  | nil =>
      intro i hi
      exact absurd hi (by simp)
  | cons a p ih =>
      intro i hi hv
      cases i with
      | zero =>
          rw [List.getD_cons_zero] at hv
          rw [List.set_cons_zero, hv]
      | succ j =>
          rw [List.getD_cons_succ] at hv
          rw [List.set_cons_succ, ih j (by simpa using hi) hv]

/-- Reading back an in-bounds position just written. -/
theorem getD_set_self (p : List Bool) (v : Bool) : ∀ i, i < p.length →
    (p.set i v).getD i false = v := by
  induction p with
  | nil =>
      intro i hi
      exact absurd hi (by simp)
  | cons a p ih =>
      intro i hi
      cases i with
      | zero => rfl
      | succ j =>
          rw [List.set_cons_succ, List.getD_cons_succ]
          exact ih j (by simpa using hi)

/-- Writing one position leaves every other position unchanged. -/
theorem getD_set_ne (p : List Bool) (v : Bool) : ∀ i j, j ≠ i →
    (p.set i v).getD j false = p.getD j false := by
  induction p with
  | nil =>
      intro i j _
      rfl
  | cons a p ih =>
      intro i j hne
      cases i with
      | zero =>
          cases j with
          | zero => exact absurd rfl hne
          | succ m => rfl
      | succ n =>
          cases j with
          | zero => rfl
          | succ m =>
              rw [List.set_cons_succ, List.getD_cons_succ, List.getD_cons_succ]
              exact ih n m (fun hc => hne (by rw [hc]))

/-- The shifting loop never touches the latch line. -/
theorem latchDrives_shiftFrom (inverted : Bool) (pattern : List Bool) (n : Nat) :
    latchDrives (shiftFrom inverted pattern n) = [] := by
  induction n with
  | zero => rfl
  | succ m ih =>
      rw [shiftFrom, latchDrives, List.filter_append]
      have hround : (shiftRound inverted (pattern.getD m false)).filter
          (fun d => d.line == Line.latch) = [] := rfl
      rw [hround, ← latchDrives, ih]
      rfl

/-- A commit sequence drives the latch line exactly twice: open before the
loop, close after it. -/
theorem latchDrives_commitSequence (inverted : Bool) (pattern : List Bool) :
    latchDrives (commitSequence inverted pattern) = [latchOpen inverted, latchClose inverted] := by
  have hopen : ((latchOpen inverted).line == Line.latch) = true := by
    cases inverted <;> rfl
  have hclose : ((latchClose inverted).line == Line.latch) = true := by
    cases inverted <;> rfl
  rw [commitSequence, latchDrives]
  simp only [List.filter_cons, List.filter_append, List.filter_nil, hopen, hclose, if_true]
  rw [show List.filter (fun d => d.line == Line.latch) (shiftFrom inverted pattern pattern.length)
        = ([] : List Drive) from latchDrives_shiftFrom inverted pattern pattern.length]
  rfl

/-- When no call in range fails, `update` on an in-bounds index returns
`Ok(())`, the pattern with the requested bit written, and the full commit
sequence for that pattern as its drive trace. -/
theorem update_eq_of_no_fail (fail : Nat → Bool) (inverted : Bool) (pattern : List Bool)
    (index : Nat) (command : Bool) (h : index < pattern.length)
    (hnf : ∀ k, k < (commitSequence inverted (pattern.set index command)).length →
      fail k = false) :
    update fail inverted pattern index command =
      some (Except.ok (), pattern.set index command,
        commitSequence inverted (pattern.set index command)) := by
  have hsnd : (runDrives fail (commitSequence inverted (pattern.set index command))).2 = true :=
    (runDrives_snd_true_iff _ fail).2 hnf
  have hfst := runDrives_fst_of_snd _ fail hsnd
  simp only [update, if_pos h]
  rw [hsnd, hfst]
  simp

/-- `getD` with default `false` on an all-`false` pattern is `false` at every
position, in or out of bounds. -/
theorem getD_replicate_false (n : Nat) : ∀ j, (List.replicate n false).getD j false = false := by
  induction n with
  | zero =>
      intro j
      rfl
  | succ m ih =>
      intro j
      cases j with
      | zero => rfl
      | succ k =>
          rw [List.replicate_succ, List.getD_cons_succ]
          exact ih k

/-- Flipping the polarity flag complements one shift round at the data drive
and leaves its clock drives unchanged. -/
theorem shiftRound_polarity (inverted : Bool) (bit : Bool) :
    shiftRound (!inverted) bit =
      (shiftRound inverted bit).map
        (fun d => if d.line == Line.clock then d else driveComplement d) := by
  cases inverted <;> cases bit <;> rfl

/-- Flipping the polarity flag maps the whole shifting loop drive-by-drive:
data drives complemented, clock drives unchanged. -/
theorem shiftFrom_polarity (inverted : Bool) (pattern : List Bool) : ∀ n,
    shiftFrom (!inverted) pattern n =
      (shiftFrom inverted pattern n).map
        (fun d => if d.line == Line.clock then d else driveComplement d) := by
  intro n
  induction n with
  | zero => rfl
  | succ m ih =>
      rw [shiftFrom, shiftFrom, List.map_append, ← ih, shiftRound_polarity]

/-! ## Claim theorems -/

/-- C6: the cache write of `update` is an unchecked slice access: presenting
an in-bounds index can never make `update` fail for that reason (it returns a
`Result`, here `isSome`), while an out-of-bounds index is a panic (`none`),
not a returned error value. -/
theorem C6_unchecked_index (fail : Nat → Bool) (inverted : Bool) (pattern : List Bool)
    (index : Nat) (command : Bool) :
    (index < pattern.length → (update fail inverted pattern index command).isSome = true) ∧
    (pattern.length ≤ index → update fail inverted pattern index command = none) := by
  constructor
  · intro h
    simp [update, if_pos h]
  · intro h
    rw [update, if_neg (by omega)]

/-- Witness for C6 at width 1: index 0 is in bounds, index 1 panics. -/
theorem C6_unchecked_index_witness :
    ((update (fun _ => false) false [false] 0 true).isSome = true) ∧
    (update (fun _ => false) false [false] 1 true = none) :=
  ⟨(C6_unchecked_index (fun _ => false) false [false] 0 true).1 (by decide),
   (C6_unchecked_index (fun _ => false) false [false] 1 true).2 (by decide)⟩

/-- C7: `new` is total (a plain function into the core type) and builds a
core whose cached pattern is `[false; w]` — so of length `w` with every entry
`false` — with `inverted = false`, driving no line during construction. -/
theorem C7_new_initial_state (P1 P2 P3 : Type) (w : Nat) (c : P1) (l : P2) (d : P3) :
    (ShiftRegister.new w c l d).1.output_state = List.replicate w false ∧
    (ShiftRegister.new w c l d).1.output_state.length = w ∧
    (ShiftRegister.new w c l d).1.inverted = false ∧
    (ShiftRegister.new w c l d).2 = [] := by
  refine ⟨rfl, ?_, rfl, rfl⟩
  simp [ShiftRegister.new]

/-- C8: a `ShiftRegisterPin` holds no state beyond its index: `set_high` is
observationally the core's `update(index, true)` and `set_low` is
`update(index, false)`, each returning exactly the update's result. -/
theorem C8_pin_forwards_update (pin : ShiftRegisterPin) (fail : Nat → Bool)
    (inverted : Bool) (pattern : List Bool) :
    pin.set_high fail inverted pattern = update fail inverted pattern pin.index true ∧
    pin.set_low fail inverted pattern = update fail inverted pattern pin.index false := by
  constructor
  · cases hu : update fail inverted pattern pin.index true with
    | none => simp [ShiftRegisterPin.set_high, hu]
    | some r =>
        obtain ⟨res, p, t⟩ := r
        cases res with
        | error e => simp [ShiftRegisterPin.set_high, hu]
        | ok u =>
            cases u
            simp [ShiftRegisterPin.set_high, hu]
  · cases hu : update fail inverted pattern pin.index false with
    | none => simp [ShiftRegisterPin.set_low, hu]
    | some r =>
        obtain ⟨res, p, t⟩ := r
        cases res with
        | error e => simp [ShiftRegisterPin.set_low, hu]
        | ok u =>
            cases u
            simp [ShiftRegisterPin.set_low, hu]

/-- C9: `release` on a core built by `new` returns exactly the clock, latch
and data lines passed to `new`, in that order, with an empty drive trace; and
`decompose` yields exactly `w` pins carrying the indices `0, …, w-1` in
ascending order, also with an empty drive trace and no cache mutation. -/
theorem C9_release_decompose (P1 P2 P3 : Type) (w : Nat) (c : P1) (l : P2) (d : P3) :
    ((ShiftRegister.new w c l d).1.release = ((c, l, d), [])) ∧
    ((ShiftRegister.new w c l d).1.decompose.1.length = w) ∧
    (∀ k, k < w → ((ShiftRegister.new w c l d).1.decompose.1[k]?
      = some ⟨k⟩)) ∧
    ((ShiftRegister.new w c l d).1.decompose.2 = []) := by
  refine ⟨rfl, ?_, ?_, rfl⟩
  · simp [ShiftRegister.decompose, ShiftRegister.new]
  · intro k hk
    have hlen : (ShiftRegister.new w c l d).1.output_state.length = w := by
      simp [ShiftRegister.new]
    simp only [ShiftRegister.decompose, hlen, List.getElem?_map]
    rw [List.getElem?_range hk]
    rfl

/-- Witness for C9 at width 2 with numbered lines: the pins are indexed 0, 1
and release hands back the lines. -/
theorem C9_release_decompose_witness :
    ((ShiftRegister.new 2 (10 : Nat) (20 : Nat) (30 : Nat)).1.release = ((10, 20, 30), [])) ∧
    ((ShiftRegister.new 2 (10 : Nat) (20 : Nat) (30 : Nat)).1.decompose.1[1]?
      = some ⟨1⟩) :=
  ⟨(C9_release_decompose Nat Nat Nat 2 10 20 30).1,
   (C9_release_decompose Nat Nat Nat 2 10 20 30).2.2.1 1 (by decide)⟩

/-- C1: the serialization loop of `update` visits the cached positions from
`width-1` down to `0`, at each position driving data to the level encoding
that bit and then pulsing the clock high then low (pulse `k` from the start
serialises position `width-1-k`); with only index 0 set, non-inverted, data
is driven high exactly on the last of the `W` pulses; and the width-8
scenario `update(3, true)` from all-false yields latch low, 8 data/clock
rounds with data high exactly at pulse index 4, then latch high. -/
theorem C1_serialization_order :
    (∀ (inverted : Bool) (pattern : List Bool),
      commitSequence inverted pattern =
        latchOpen inverted ::
          (((List.range pattern.length).map
              (fun k => shiftRound inverted (pattern.getD (pattern.length - 1 - k) false))).flatten
            ++ [latchClose inverted])) ∧
    (∀ W : Nat, 0 < W →
      dataDrives (commitSequence false (true :: List.replicate (W - 1) false)) =
        (List.range W).map
          (fun k => ⟨Line.data, if k = W - 1 then Level.high else Level.low⟩)) ∧
    (update (fun _ => false) false (List.replicate 8 false) 3 true =
      some (Except.ok (), (List.replicate 8 false).set 3 true,
        [⟨Line.latch, Level.low⟩,
         ⟨Line.data, Level.low⟩, ⟨Line.clock, Level.high⟩, ⟨Line.clock, Level.low⟩,
         ⟨Line.data, Level.low⟩, ⟨Line.clock, Level.high⟩, ⟨Line.clock, Level.low⟩,
         ⟨Line.data, Level.low⟩, ⟨Line.clock, Level.high⟩, ⟨Line.clock, Level.low⟩,
         ⟨Line.data, Level.low⟩, ⟨Line.clock, Level.high⟩, ⟨Line.clock, Level.low⟩,
         ⟨Line.data, Level.high⟩, ⟨Line.clock, Level.high⟩, ⟨Line.clock, Level.low⟩,
         ⟨Line.data, Level.low⟩, ⟨Line.clock, Level.high⟩, ⟨Line.clock, Level.low⟩,
         ⟨Line.data, Level.low⟩, ⟨Line.clock, Level.high⟩, ⟨Line.clock, Level.low⟩,
         ⟨Line.data, Level.low⟩, ⟨Line.clock, Level.high⟩, ⟨Line.clock, Level.low⟩,
         ⟨Line.latch, Level.high⟩])) := by
  refine ⟨?_, ?_, ?_⟩
  · intro inverted pattern
    rw [commitSequence, shiftFrom_eq_join]
  · intro W hW
    have hlen : (true :: List.replicate (W - 1) false).length = W := by
      simp only [List.length_cons, List.length_replicate]
      omega
    rw [dataDrives_commitSequence, hlen]
    apply List.map_congr_left
    intro k hk
    rw [List.mem_range] at hk
    by_cases hkW : k = W - 1
    · have h0 : W - 1 - k = 0 := by omega
      rw [h0, List.getD_cons_zero, if_pos hkW]
      rfl
    · have h1 : W - 1 - k = (W - 1 - k - 1) + 1 := by omega
      rw [h1, List.getD_cons_succ, getD_replicate_false, if_neg hkW]
      rfl
  · rfl

/-- Witness for C1: the bit-order property applied at width 3. -/
theorem C1_serialization_order_witness :
    (0 < 3) ∧
    (dataDrives (commitSequence false (true :: List.replicate (3 - 1) false)) =
      (List.range 3).map
        (fun k => ⟨Line.data, if k = 3 - 1 then Level.high else Level.low⟩)) :=
  ⟨by decide, C1_serialization_order.2.1 3 (by decide)⟩

/-- C2 fails as stated: the drive sequence with `inverted = true` is not the
call-by-call polarity complement of the one with `inverted = false`, because
the clock pulses are driven high/low identically in both. At the one-bit
all-false cache, complementing the inverted-mode trace does not give the
non-inverted trace (they differ at the clock drives). -/
theorem C2_counterexample :
    (update (fun _ => false) true [false] 0 false).map
        (fun r => r.2.2.map driveComplement)
      ≠ (update (fun _ => false) false [false] 0 false).map (fun r => r.2.2) := by
  decide

/-- C2 amended: flipping the `inverted` flag complements every latch-line and
data-line drive of the commit sequence, call by call, while the clock-line
drives are unchanged. -/
theorem C2_amended_polarity (inverted : Bool) (pattern : List Bool) :
    commitSequence (!inverted) pattern =
      (commitSequence inverted pattern).map
        (fun d => if d.line == Line.clock then d else driveComplement d) := by
  simp only [commitSequence, List.map_cons, List.map_append]
  rw [← shiftFrom_polarity]
  congr 1
  · cases inverted <;> rfl
  · congr 1
    cases inverted <;> rfl

/-- C10: the clock-line drives of every commit sequence are exactly
`width` pulses of `set_high` then `set_low`, in that fixed order, and they do
not depend on the `inverted` flag. -/
theorem C10_clock_independent_of_inverted (inverted : Bool) (pattern : List Bool) :
    clockDrives (commitSequence inverted pattern) = clockPulses pattern.length ∧
    clockDrives (commitSequence inverted pattern)
      = clockDrives (commitSequence (!inverted) pattern) := by
  refine ⟨clockDrives_commitSequence inverted pattern, ?_⟩
  rw [clockDrives_commitSequence, clockDrives_commitSequence]

/-- C3: on an in-bounds index, `update` writes the requested value into the
cached pattern before any line drive; the result is `Ok(())` exactly when
every line-drive call succeeds; and when the `k`-th call (0-based) is the
first to fail, the attempted drives are exactly the first `k + 1` of the
commit sequence (the failure returns immediately, no rollback of the cache,
which already equals `pattern.set index command` in both outcomes). -/
theorem C3_cache_then_abort (fail : Nat → Bool) (inverted : Bool) (pattern : List Bool)
    (index : Nat) (command : Bool) (h : index < pattern.length) :
    ∃ res trace,
      update fail inverted pattern index command
        = some (res, pattern.set index command, trace) ∧
      (pattern.set index command).getD index false = command ∧
      ((res = Except.ok ()) ↔
        (∀ k, k < (commitSequence inverted (pattern.set index command)).length →
          fail k = false)) ∧
      (∀ k, k < (commitSequence inverted (pattern.set index command)).length →
        fail k = true → (∀ j, j < k → fail j = false) →
        trace = (commitSequence inverted (pattern.set index command)).take (k + 1)
          ∧ res = Except.error ()) := by
  refine ⟨(if (runDrives fail (commitSequence inverted (pattern.set index command))).2
      then Except.ok () else Except.error ()),
    (runDrives fail (commitSequence inverted (pattern.set index command))).1,
    ?_, getD_set_self pattern command index h, ?_, ?_⟩
  · simp only [update]
    rw [if_pos h]
  · rw [← runDrives_snd_true_iff (commitSequence inverted (pattern.set index command)) fail]
    cases hb : (runDrives fail (commitSequence inverted (pattern.set index command))).2 <;>
      simp [hb]
  · intro k hk hfk hprev
    have hrun := runDrives_first_fail (commitSequence inverted (pattern.set index command))
      fail k hk hfk hprev
    rw [hrun]
    simp

/-- Witness for C3: width 2, `update(0, true)`, with the second line-drive
call (index 1) failing. -/
theorem C3_cache_then_abort_witness :
    ∃ res trace,
      update (fun n => decide (n = 1)) false [false, false] 0 true
        = some (res, [false, false].set 0 true, trace) ∧
      ([false, false].set 0 true).getD 0 false = true ∧
      ((res = Except.ok ()) ↔
        (∀ k, k < (commitSequence false ([false, false].set 0 true)).length →
          decide (k = 1) = false)) ∧
      (∀ k, k < (commitSequence false ([false, false].set 0 true)).length →
        decide (k = 1) = true → (∀ j, j < k → decide (j = 1) = false) →
        trace = (commitSequence false ([false, false].set 0 true)).take (k + 1)
          ∧ res = Except.error ()) :=
  C3_cache_then_abort (fun n => decide (n = 1)) false [false, false] 0 true (by decide)

/-- C4: every successful in-bounds `update` emits the full commit sequence,
whose clock drives are exactly `width` high-then-low pulses, whose latch
drives are exactly two — the open drive first, the close drive last — and
those two latch levels are opposite. -/
theorem C4_pulse_and_latch_counts (fail : Nat → Bool) (inverted : Bool) (pattern : List Bool)
    (index : Nat) (command : Bool) (h : index < pattern.length)
    (hsucc : ∀ k, k < (commitSequence inverted (pattern.set index command)).length →
      fail k = false) :
    update fail inverted pattern index command
      = some (Except.ok (), pattern.set index command,
          commitSequence inverted (pattern.set index command)) ∧
    clockDrives (commitSequence inverted (pattern.set index command))
      = clockPulses pattern.length ∧
    latchDrives (commitSequence inverted (pattern.set index command))
      = [latchOpen inverted, latchClose inverted] ∧
    (commitSequence inverted (pattern.set index command)).head? = some (latchOpen inverted) ∧
    (commitSequence inverted (pattern.set index command)).getLast? = some (latchClose inverted) ∧
    (latchClose inverted).level = levelComplement ((latchOpen inverted).level) := by
  refine ⟨update_eq_of_no_fail fail inverted pattern index command h hsucc, ?_,
    latchDrives_commitSequence inverted (pattern.set index command), rfl, ?_, ?_⟩
  · rw [clockDrives_commitSequence, List.length_set]
  · rw [commitSequence, ← List.cons_append, List.getLast?_concat]
  · cases inverted <;> rfl

/-- Witness for C4: width 1, `update(0, true)`, no failures. -/
theorem C4_pulse_and_latch_counts_witness :
    update (fun _ => false) false [false] 0 true
      = some (Except.ok (), [false].set 0 true, commitSequence false ([false].set 0 true)) ∧
    clockDrives (commitSequence false ([false].set 0 true))
      = clockPulses ([false] : List Bool).length ∧
    latchDrives (commitSequence false ([false].set 0 true))
      = [latchOpen false, latchClose false] ∧
    (commitSequence false ([false].set 0 true)).head? = some (latchOpen false) ∧
    (commitSequence false ([false].set 0 true)).getLast? = some (latchClose false) ∧
    (latchClose false).level = levelComplement ((latchOpen false).level) :=
  C4_pulse_and_latch_counts (fun _ => false) false [false] 0 true (by decide) (fun _ _ => rfl)

/-- C5 fails as stated: from the one-bit cache `[true]`, `update(0, true)`
then `update(0, false)` leaves the cache `[false]`, not its original state
`[true]` — the round trip restores the cache only when bit `i` was `false`
to begin with. -/
theorem C5_counterexample :
    (((update (fun _ => false) false [true] 0 true).bind
        (fun r => update (fun _ => false) false r.2.1 0 false)).map (fun r => r.2.1))
      = some [false]
    ∧ [false] ≠ [true] := by
  decide

/-- C5 amended: for every cached pattern and in-bounds index `i`,
`update(i, true)` then `update(i, false)` both succeed (absent failures); the
cache after the round trip is the original with bit `i` cleared — identical
to the original whenever bit `i` was `false` before the calls — and the
second call's commit sequence encodes every cached bit other than `i` (at its
pulse `width - 1 - j`) with the value it had before the first call. -/
theorem C5_round_trip_amended (inverted : Bool) (pattern : List Bool) (i : Nat)
    (h : i < pattern.length) :
    (update (fun _ => false) inverted pattern i true
      = some (Except.ok (), pattern.set i true,
          commitSequence inverted (pattern.set i true))) ∧
    (update (fun _ => false) inverted (pattern.set i true) i false
      = some (Except.ok (), (pattern.set i true).set i false,
          commitSequence inverted ((pattern.set i true).set i false))) ∧
    (pattern.getD i false = false → (pattern.set i true).set i false = pattern) ∧
    (∀ j, j < pattern.length → j ≠ i →
      (dataDrives (commitSequence inverted
          ((pattern.set i true).set i false)))[pattern.length - 1 - j]?
        = some ⟨Line.data, dataLevel inverted (pattern.getD j false)⟩) := by
  refine ⟨update_eq_of_no_fail (fun _ => false) inverted pattern i true h (fun _ _ => rfl),
    update_eq_of_no_fail (fun _ => false) inverted (pattern.set i true) i false
      (by rw [List.length_set]; exact h) (fun _ _ => rfl), ?_, ?_⟩
  · intro h0
    rw [List.set_set]
    exact set_getD_eq pattern false i h h0
  · intro j hj hne
    rw [List.set_set, dataDrives_commitSequence, List.length_set]
    have hidx : pattern.length - 1 - j < pattern.length := by omega
    rw [List.getElem?_map, List.getElem?_range hidx]
    have hjj : pattern.length - 1 - (pattern.length - 1 - j) = j := by omega
    simp only [Option.map_some']
    rw [hjj, getD_set_ne pattern false i j hne]

/-- Witness for C5: width 2, bit 0 starting `false`, neighbour bit 1 `true`. -/
theorem C5_round_trip_amended_witness :
    (update (fun _ => false) false [false, true] 0 true
      = some (Except.ok (), [false, true].set 0 true,
          commitSequence false ([false, true].set 0 true))) ∧
    (update (fun _ => false) false ([false, true].set 0 true) 0 false
      = some (Except.ok (), ([false, true].set 0 true).set 0 false,
          commitSequence false (([false, true].set 0 true).set 0 false))) ∧
    (([false, true] : List Bool).getD 0 false = false →
      ([false, true].set 0 true).set 0 false = [false, true]) ∧
    (∀ j, j < ([false, true] : List Bool).length → j ≠ 0 →
      (dataDrives (commitSequence false
          (([false, true].set 0 true).set 0 false)))[([false, true] : List Bool).length - 1 - j]?
        = some ⟨Line.data, dataLevel false (([false, true] : List Bool).getD j false)⟩) :=
  C5_round_trip_amended false [false, true] 0 (by decide)
